import Mathlib

/-!
# Verification of the dependency-resolution core of homebrew-pypi-poet

A shallow embedding of `poet/poet.py` (dependency walker, metadata fetcher,
graph builder, graph merger) together with proofs about the spec's claims.

Modelling conventions:
* `pkg_resources.Requirement` is modelled by `Req` (a project name plus a
  list of extras).  Version specifiers and environment markers are not
  needed by any claim and are not modelled.
* The locally installed working set is an explicit list of `Dist` values.
* Network and hashing effects of the metadata fetcher are modelled by a
  record of oracle functions (`Fetcher`); the list of artifact downloads the
  fetcher performs is returned explicitly so that claims about "no second
  network fetch" can be stated.
* Python `warnings.warn` calls are modelled by an explicit list of `Warn`
  values returned alongside each result, in emission order.
* The records stored in a dependency graph are plain Python dicts with the
  fixed key set {version, name, homepage, url, checksum, checksum_type};
  they are modelled by the structure `GraphRec` (dict equality on a fixed
  key set coincides with structural equality).  Python *attribute* access
  on such a dict record always raises `AttributeError`; this is modelled by
  `recordGetattr`, and `merge_graphs` therefore returns an `Except`.
-/

namespace Poet

/-! ## String primitives

Python's `str.lower` and string comparison, as structurally recursive Lean
functions (the corresponding core-library `String` operations are
implemented by well-founded recursion on byte positions, which the kernel
cannot evaluate; these definitions compute). -/

/-- ASCII lower-casing of one character, as Python's `str.lower` acts on
the ASCII range that package names use. -/
def lowerChar (c : Char) : Char :=
  if 65 ≤ c.toNat ∧ c.toNat ≤ 90 then Char.ofNat (c.toNat + 32) else c

/-- Python `s.lower()`. -/
def lowerStr (s : String) : String := ⟨s.data.map lowerChar⟩

/-- Lexicographic `≤` on code-point sequences: Python's `<=` on `str`. -/
def charsLe : List Char → List Char → Bool
  | [], _ => true
  | _ :: _, [] => false
  | a :: as, b :: bs =>
    if a.toNat < b.toNat then true
    else if b.toNat < a.toNat then false
    else charsLe as bs

/-- Python `a <= b` on strings. -/
def strLe (a b : String) : Bool := charsLe a.data b.data

/-- Relation form of `strLe`, as a decidable relation, for `List.insertionSort` and
`List.Sorted`. -/
def SLe (a b : String) : Prop := strLe a b = true

instance : DecidableRel SLe := fun a b => instDecidableEqBool (strLe a b) true

instance : IsTotal String SLe := by
  constructor
  intro a b
  show strLe a b = true ∨ strLe b a = true
  unfold strLe
  induction a.data generalizing b with
  | nil => left; rfl
  | cons c cs ih =>
    cases hb : b.data with
    | nil => right; rfl
    | cons d ds =>
      show charsLe (c :: cs) (d :: ds) = true ∨ charsLe (d :: ds) (c :: cs) = true
      simp only [charsLe]
      rcases Nat.lt_trichotomy c.toNat d.toNat with h | h | h
      · left; simp [h]
      · have h' : ¬ c.toNat < d.toNat := by omega
        have h'' : ¬ d.toNat < c.toNat := by omega
        rcases ih ⟨ds⟩ with hl | hr
        · left; simpa [h', h''] using hl
        · right; simpa [h', h''] using hr
      · right; simp [h, Nat.lt_asymm h]

instance : IsTrans String SLe := by
  constructor
  intro a b c hab hbc
  show strLe a c = true
  have key : ∀ (x y z : List Char), charsLe x y = true → charsLe y z = true →
      charsLe x z = true := by
    intro x
    induction x with
    | nil => intro y z _ _; rfl
    | cons d ds ih =>
      intro y z hxy hyz
      cases y with
      | nil => simp [charsLe] at hxy
      | cons e es =>
        cases z with
        | nil => simp [charsLe] at hyz
        | cons f fs =>
          simp only [charsLe] at hxy hyz ⊢
          split_ifs at hxy hyz ⊢ <;>
            first
              | rfl
              | omega
              | exact ih es fs hxy hyz
  exact key a.data b.data c.data hab hbc

/-- Model of `pkg_resources.Requirement`: a project name plus requested extras.
Version specifiers are not modelled (no claim depends on them). -/
structure Req where
  projectName : String
  extras : List String
deriving DecidableEq, Repr

/-- Model of `Requirement.key`: the lower-cased project name, used to look a
requirement up in the working set. -/
def Req.key (r : Req) : String := lowerStr r.projectName

/-- An installed distribution of the working set
(`pkg_resources.working_set` entry): its key, installed version, its
unconditional requirements and its per-extra requirements. -/
structure Dist where
  key : String
  version : String
  baseReqs : List Req
  extraReqs : List (String × List Req)
deriving DecidableEq, Repr

/-- First-match association-list lookup (Python `dict` access where the
keys are inserted without duplicates). -/
def lookupA {α : Type} : List (String × α) → String → Option α
  | [], _ => none
  | kv :: rest, k => if kv.1 == k then some kv.2 else lookupA rest k

/-- Model of `Distribution.requires(extras)`: the unconditional requirements plus the
requirements of each requested extra.  (An extra the distribution does not
define contributes nothing; `UnknownExtra` is not modelled, no claim
depends on it.) -/
def Dist.requires (d : Dist) (extras : List String) : List Req :=
  d.baseReqs ++ extras.flatMap (fun e => (lookupA d.extraReqs e).getD [])

/-- Model of `pkg_resources.get_distribution(package)`, searching the working set by
requirement key; `none` models the caught `DistributionNotFound`. -/
def getDistribution (env : List Dist) (r : Req) : Option Dist :=
  env.find? (fun d => d.key == r.key)

/-- The Python expression `package == "requests"` at poet.py:77, where
`package` is a `pkg_resources.Requirement`.  `Requirement.__eq__` starts
with `isinstance(other, Requirement)`, so comparing a requirement with a
`str` returns `False` for every requirement. -/
def reqEqStr (_r : Req) (_s : String) : Bool := false

/-- poet.py:76-78: `extras = package.extras; if package == "requests":
extras += ("security",)`. -/
def extrasFor (p : Req) : List String :=
  if reqEqStr p "requests" then p.extras ++ ["security"] else p.extras

/-- The mutable state of `recursive_dependencies`: the `discovered` name
set (a duplicate-free list) and the `visited` requirement set. -/
structure WalkState where
  discovered : List String
  visited : List Req
deriving DecidableEq, Repr

/-- Model of `discovered.update(names)`: insert, left to right, each name not
already present. -/
def addNames (discovered : List String) (names : List String) : List String :=
  names.foldl (fun acc n => if n ∈ acc then acc else acc ++ [n]) discovered

/-- The inner `walk` of `recursive_dependencies` (poet.py:70-85), with an
explicit fuel argument standing for the call-stack depth of the Python
recursion.  `none` means the fuel was exhausted;
`walkF_adequate` below shows a computable bound on the needed fuel. -/
def walkF (env : List Dist) : Nat → Req → WalkState → Option WalkState
  | 0, _, _ => none
  | fuel+1, p, s =>
    if p ∈ s.visited then some s
    else
      let s1 : WalkState := { s with visited := p :: s.visited }
      match getDistribution env p with
      | none => some s1
      | some d =>
        let reqs := d.requires (extrasFor p)
        let s2 : WalkState := { s1 with
          discovered := addNames s1.discovered
            (reqs.map (fun r => lowerStr r.projectName)) }
        reqs.foldl (fun acc q => acc.bind (walkF env fuel q)) (some s2)

/-- Every requirement `walkF` can ever be called on: the root plus every
requirement mentioned by some installed distribution.  Its length bounds
the recursion depth. -/
def reqUniverse (env : List Dist) (root : Req) : List Req :=
  root :: env.flatMap (fun d => d.baseReqs ++ d.extraReqs.flatMap (·.2))

/-- Embedding of `recursive_dependencies(package)` (poet.py:63-88).  The `TypeError` on
non-`Requirement` input is ruled out by typing.  Python's `sorted` over the
`discovered` set is modelled by `List.insertionSort SLe` (both return the
unique sorted permutation of a duplicate-free list under the lexicographic
code-point order that both languages use for strings). -/
def recursive_dependencies (env : List Dist) (root : Req) : Option (List String) :=
  (walkF env ((reqUniverse env root).length + 1) root
      { discovered := [lowerStr root.projectName], visited := [] }).map
    (fun s => List.insertionSort SLe s.discovered)

/-! ## Metadata fetcher (`research_package`, pypi branch, poet.py:256-327)

The `AWS_CODEARTIFACT_REPOSITORY` branch is an alternate backend selected
by an environment variable; the claims all concern the registry (pypi)
branch, which is the one embedded here. -/

/-- One entry of `pkg_data["releases"][v]` or `pkg_data["urls"]`: an
artifact dictionary.  `digests = none` models a response without a
`digests` key. -/
structure Artefact where
  packagetype : String
  url : String
  digests : Option (List (String × String))
deriving DecidableEq, Repr

/-- The JSON document served at `https://pypi.io/pypi/{name}/json`:
`info.name`, `info.home_page` (possibly absent), the releases table in
document order, and the artifact list of the newest release (`urls`). -/
structure PkgData where
  name : String
  home_page : Option String
  releases : List (String × List Artefact)
  urls : List Artefact
deriving DecidableEq, Repr

/-- The effect oracles of the metadata fetcher:
* `registry name` — the parsed JSON registry response for `name`;
* `download url` — the body returned by `urlopen(url).read()`;
* `sha256 body` — `hashlib.sha256(body).hexdigest()`;
* `parseOk v` — whether `packaging.version.parse(v)` succeeds;
* `safe_version v` — `pkg_resources.safe_version(v)`. -/
structure Fetcher where
  registry : String → PkgData
  download : String → String
  sha256 : String → String
  parseOk : String → Bool
  safe_version : String → String

/-- poet.py:268-275: `parse(version)` under `try`.  `parse(None)` raises
`TypeError` and an unparseable string raises `InvalidVersion`; both
handlers set `version = None`, so the call never raises. -/
def resolveVersion (F : Fetcher) : Option String → Option String
  | none => none
  | some s => if F.parseOk s then some s else none

/-- The inner loop of poet.py:293-298: the first `sdist` artifact of a
release's artifact list. -/
def sdistOf (arts : List Artefact) : Option Artefact :=
  arts.find? (fun a => a.packagetype == "sdist")

/-- The release scan of poet.py:292-298: for each release (in document
order) whose `safe_version` equals the requested version, replace the
candidate with that release's first `sdist` (keeping the previous
candidate when the matching release has none). -/
def findReleaseArtefact (F : Fetcher) (releases : List (String × List Artefact))
    (v : String) : Option Artefact :=
  releases.foldl
    (fun acc rel =>
      if F.safe_version rel.1 == v then
        match sdistOf rel.2 with
        | some art => some art
        | none => acc
      else acc)
    none

/-- The artifact `research_package` settles on (poet.py:291-310): the
release scan when a version was requested, falling back to the first
`sdist` of `urls` when no version was requested or no exact match was
found. -/
def chosenArtefact (F : Fetcher) (pkg : PkgData) (version : Option String) :
    Option Artefact :=
  match version with
  | some v =>
    match findReleaseArtefact F pkg.releases v with
    | some a => some a
    | none => sdistOf pkg.urls
  | none => sdistOf pkg.urls

/-- The categories of Python warning a `warnings.warn` call in the core
can carry.  `UserWarning` is the base class, used when `warnings.warn` is
called without an explicit category. -/
inductive WarnCategory
  | UserWarning
  | PackageNotInstalledWarning
  | PackageNotFoundWarning
  | PackageVersionNotFoundWarning
  | ConflictingDependencyWarning
deriving DecidableEq, Repr

/-- Python `issubclass`: every warning class defined in poet.py derives
from `UserWarning` (poet.py:48-60), so a filter or `pytest.warns` clause
for a category also matches every category below it. -/
def WarnCategory.isSubclassOf : WarnCategory → WarnCategory → Bool
  | _, .UserWarning => true
  | c, d => c == d

/-- One emitted warning: which `warnings.warn` call site fired, with its
message data. -/
inductive Warn
  | packageNotInstalled (package : String)
  | packageVersionNotFound (name : String) (version : String)
  | noSdist (name : String)
  | conflictingDependency (message : String)
deriving DecidableEq, Repr

/-- The category each call site passes to `warnings.warn`.  The
`"No sdist found for %s"` call (poet.py:325) passes no category, so it
carries the default `UserWarning`. -/
def Warn.category : Warn → WarnCategory
  | .packageNotInstalled _ => .PackageNotInstalledWarning
  | .packageVersionNotFound _ _ => .PackageVersionNotFoundWarning
  | .noSdist _ => .UserWarning
  | .conflictingDependency _ => .ConflictingDependencyWarning

/-- The dictionary `research_package` returns (keys of `d` at
poet.py:288-326, the `version`-independent part). -/
structure ResearchResult where
  name : String
  homepage : String
  url : String
  checksum : String
  checksum_type : String
deriving DecidableEq, Repr

/-- Embedding of `research_package(name, version)` (poet.py:256-327, registry branch).
Returns the metadata dictionary, the list of artifact URLs downloaded for
checksum computation (the "second network fetch"), and the warnings
emitted, in order. -/
def research_package (F : Fetcher) (name : String) (version₀ : Option String) :
    ResearchResult × List String × List Warn :=
  let version := resolveVersion F version₀
  let pkg := F.registry name
  let warns1 : List Warn :=
    match version with
    | some v =>
      if (findReleaseArtefact F pkg.releases v).isNone then
        [Warn.packageVersionNotFound name v]
      else []
    | none => []
  match chosenArtefact F pkg version with
  | some a =>
    let cs : String × List String :=
      match a.digests with
      | some dg =>
        match lookupA dg "sha256" with
        | some h => (h, [])
        | none => (F.sha256 (F.download a.url), [a.url])
      | none => (F.sha256 (F.download a.url), [a.url])
    (⟨pkg.name, pkg.home_page.getD "", a.url, cs.1, "sha256"⟩, cs.2, warns1)
  | none =>
    (⟨pkg.name, pkg.home_page.getD "", "", "", "sha256"⟩, [],
      warns1 ++ [Warn.noSdist name])

/-! ## Graph builder (`make_graph`, poet.py:330-361) -/

/-- The per-package record `make_graph` builds: a Python dict with the
fixed key set {version, name, homepage, url, checksum, checksum_type}.
`version` is `None` for a package that is not installed locally. -/
structure GraphRec where
  version : Option String := none
  name : String := ""
  homepage : String := ""
  url : String := ""
  checksum : String := ""
  checksum_type : String := ""
deriving DecidableEq, Repr

/-- The shared output step of poet.py:359-361 and poet.py:422: rebuild the
mapping with its keys sorted (`OrderedDict((k, result[k]) for k in
sorted(result.keys()))`). -/
def sortGraph (result : List (String × GraphRec)) : List (String × GraphRec) :=
  (List.insertionSort SLe (result.map Prod.fst)).map
    (fun k => (k, (lookupA result k).getD {}))

/-- Embedding of `make_graph(pkg)` (poet.py:330-361) for an already parsed root
requirement.  The duplicate-free `pkg_deps` (a sorted set) is filtered by
the fixed ignore list; each surviving name gets its installed version (or
a `PackageNotInstalledWarning` and `None`), then its researched metadata.
The first loop's warnings all precede the research warnings, as in the
source.  `none` only reflects walker fuel exhaustion, which
`walkF_adequate` below rules out. -/
def make_graph (F : Fetcher) (env : List Dist) (pkg : Req) :
    Option (List (String × GraphRec) × List Warn) :=
  (recursive_dependencies env pkg).map (fun pkg_deps =>
    let ignore := ["argparse", "pip", "setuptools", "wsgiref"]
    let deps := pkg_deps.filter (fun k => decide (k ∉ ignore))
    let versions := env.map (fun d => (d.key, d.version))
    let withV : List (String × Option String) :=
      deps.map (fun k => (k, lookupA versions k))
    let warns1 : List Warn := withV.filterMap (fun kv =>
      if kv.2.isNone then some (Warn.packageNotInstalled kv.1) else none)
    let researched : List ((String × GraphRec) × List Warn) :=
      withV.map (fun kv =>
        let r := research_package F kv.1 kv.2
        ((kv.1,
          { version := kv.2, name := r.1.name, homepage := r.1.homepage,
            url := r.1.url, checksum := r.1.checksum,
            checksum_type := r.1.checksum_type }),
         r.2.2))
    (sortGraph (researched.map (·.1)), warns1 ++ researched.flatMap (·.2)))

/-! ## Graph merger (`merge_graphs`, poet.py:406-422) -/

/-- A Python runtime error escaping the merge loop. -/
inductive PyError
  | attributeError (msg : String)
deriving DecidableEq, Repr

/-- Python attribute access `getattr(record, attr)` on a metadata record.
The records are plain dicts, and a dict does not expose its items as
attributes, so this always fails with `AttributeError` — whatever the
attribute name, including `"name"` and `"version"` which exist as *keys*
of the record. -/
def recordGetattr (_r : GraphRec) (_attr : String) : Option String := none

/-- Building the conflict message of poet.py:416-419:
`"Merge conflict: {l.name} {l.version} and {r.name} {r.version}; using the
former."`.  `str.format` resolves the four dotted fields left to right by
attribute access, so with dict records the very first one raises. -/
def formatConflict (l r : GraphRec) : Except PyError String :=
  match recordGetattr l "name" with
  | none => .error (.attributeError "dict object has no attribute name")
  | some ln =>
    match recordGetattr l "version" with
    | none => .error (.attributeError "dict object has no attribute version")
    | some lv =>
      match recordGetattr r "name" with
      | none => .error (.attributeError "dict object has no attribute name")
      | some rn =>
        match recordGetattr r "version" with
        | none => .error (.attributeError "dict object has no attribute version")
        | some rv =>
          .ok ("Merge conflict: " ++ ln ++ " " ++ lv ++ " and " ++ rn ++ " "
            ++ rv ++ "; using the former.")

/-- The body of the merge loop (poet.py:409-421) for one key of one input
graph: insert an absent key, skip an identical record, and for a differing
record keep the first-seen one and attempt to warn (which raises, see
`formatConflict`). -/
def mergeKey (acc : List (String × GraphRec) × List Warn)
    (kv : String × GraphRec) :
    Except PyError (List (String × GraphRec) × List Warn) :=
  match lookupA acc.1 kv.1 with
  | none => .ok (acc.1 ++ [kv], acc.2)
  | some v =>
    if v = kv.2 then .ok acc
    else
      match formatConflict v kv.2 with
      | .error e => .error e
      | .ok msg => .ok (acc.1, acc.2 ++ [Warn.conflictingDependency msg])

/-- Embedding of `merge_graphs(graphs)` (poet.py:406-422): fold the graphs left to
right, and within each graph its keys left to right, through `mergeKey`,
then emit the accumulated mapping with sorted keys. -/
def merge_graphs (graphs : List (List (String × GraphRec))) :
    Except PyError (List (String × GraphRec) × List Warn) :=
  (graphs.foldlM (fun acc (g : List (String × GraphRec)) => g.foldlM mergeKey acc)
      ([], [])).map
    (fun rw => (sortGraph rw.1, rw.2))

/-! ## Auxiliary notions used by the proofs -/

/-- Closure of `U` under expansion: it contains every requirement a
distribution lookup during the walk can produce. -/
def envClosed (env : List Dist) (U : List Req) : Prop :=
  ∀ p d, getDistribution env p = some d → ∀ q ∈ d.requires (extrasFor p), q ∈ U

/-- The number of requirements of `U` not yet visited: the termination
measure of the walk. -/
def unvisited (U : List Req) (visited : List Req) : Nat :=
  (U.filter (fun r => decide (r ∉ visited))).length

/-- What one completed walk call guarantees about its state change: the
visited and discovered sets only grow, every newly discovered name is the
lower-cased project name of a requirement of `U`, and duplicate-freeness
of the discovered set is preserved. -/
def WalkOk (U : List Req) (s t : WalkState) : Prop :=
  s.visited ⊆ t.visited ∧
  s.discovered ⊆ t.discovered ∧
  (∀ n ∈ t.discovered, n ∈ s.discovered ∨ ∃ q ∈ U, n = lowerStr q.projectName) ∧
  (s.discovered.Nodup → t.discovered.Nodup)

/-! ## Concrete fixtures used by witnesses and counterexamples -/

/-- A registry that knows nothing: every package resolves to a response
with no releases and no artifacts. -/
def emptyFetcher : Fetcher :=
  { registry := fun n => { name := n, home_page := none, releases := [], urls := [] },
    download := fun _ => "", sha256 := fun _ => "", parseOk := fun _ => true,
    safe_version := fun v => v }

/-- A registry whose packages ship one sdist carrying a supplied sha256
digest, plus an old release that only has a wheel. -/
def digestFetcher : Fetcher :=
  { registry := fun n =>
      { name := n, home_page := some "https://example.org",
        releases :=
          [("1.0.0", [{ packagetype := "bdist_wheel", url := "w", digests := none }])],
        urls := [{ packagetype := "sdist", url := "https://files/pkg-1.0.0.tar.gz",
                   digests := some [("sha256", "cafebabe")] }] },
    download := fun _ => "BODY", sha256 := fun _ => "deadbeef",
    parseOk := fun _ => true, safe_version := fun v => v }

/-- Like `digestFetcher` but the sdist response carries no digests, so a
checksum must be computed from a download. -/
def noDigestFetcher : Fetcher :=
  { digestFetcher with
    registry := fun n =>
      { name := n, home_page := some "https://example.org", releases := [],
        urls := [{ packagetype := "sdist", url := "https://files/pkg-2.tar.gz",
                   digests := none }] } }

/-- A registry that only exposes pre-built binary artifacts: no
source-archive artifact anywhere. -/
def wheelOnlyFetcher : Fetcher :=
  { digestFetcher with
    registry := fun n =>
      { name := n, home_page := none,
        releases := [("1.0.0", [{ packagetype := "bdist_wheel", url := "w",
                                  digests := none }])],
        urls := [{ packagetype := "bdist_wheel", url := "w", digests := none }] } }

/-- An installed copy of `pip` itself. -/
def pipDist : Dist := { key := "pip", version := "1.0", baseReqs := [], extraReqs := [] }

/-- An installed leaf package `demo`. -/
def demoDist : Dist := { key := "demo", version := "1.0", baseReqs := [], extraReqs := [] }

/-- An installed `requests` whose `security` extra would pull in
`pyopenssl`. -/
def requestsDist : Dist :=
  { key := "requests", version := "2.0", baseReqs := [],
    extraReqs := [("security", [{ projectName := "pyopenssl", extras := [] }])] }

/-- A metadata record for package `foo` at version 1.0. -/
def recFoo1 : GraphRec := { version := some "1.0", name := "foo" }

/-- A metadata record for package `foo` at version 2.0 (differs from
`recFoo1` only in the version). -/
def recFoo2 : GraphRec := { version := some "2.0", name := "foo" }

/-- A metadata record for package `bar`. -/
def recBar : GraphRec := { version := some "1.0", name := "bar" }

/-- A fetcher whose version parser rejects everything (models
`packaging.version.parse` raising `InvalidVersion`). -/
def unparseableFetcher : Fetcher := { digestFetcher with parseOk := fun _ => false }

/-- The output `make_graph` computes for root `demo` against
`emptyFetcher` and a working set containing only `demoDist`. -/
def demoGraphOut : List (String × GraphRec) × List Warn :=
  ([("demo", { version := some "1.0", name := "demo", homepage := "", url := "",
               checksum := "", checksum_type := "sha256" })],
   [Warn.packageVersionNotFound "demo" "1.0", Warn.noSdist "demo"])

/-! ## Lemmas about association lists -/

theorem lookupA_eq_none {α : Type} (l : List (String × α)) (k : String) :
    lookupA l k = none ↔ k ∉ l.map Prod.fst := by
  induction l with
  | nil => simp [lookupA]
  | cons kv rest ih =>
    by_cases h : kv.1 = k
    · simp [lookupA, h]
    · simp [lookupA, h, ih, Ne.symm h]

theorem lookupA_append_left {α : Type} {l₁ : List (String × α)} {k : String}
    {v : α} (l₂ : List (String × α)) (h : lookupA l₁ k = some v) :
    lookupA (l₁ ++ l₂) k = some v := by
  induction l₁ with
  | nil => cases h
  | cons kv rest ih =>
    by_cases hk : kv.1 = k
    · simp only [lookupA, hk] at h ⊢
      simpa using h
    · simp only [List.cons_append, lookupA, beq_iff_eq, hk, if_false] at h ⊢
      exact ih h

theorem lookupA_append_right {α : Type} {l₁ : List (String × α)} {k : String}
    (l₂ : List (String × α)) (h : lookupA l₁ k = none) :
    lookupA (l₁ ++ l₂) k = lookupA l₂ k := by
  induction l₁ with
  | nil => rfl
  | cons kv rest ih =>
    by_cases hk : kv.1 = k
    · simp [lookupA, hk] at h
    · simp only [List.cons_append, lookupA, beq_iff_eq, hk, if_false] at h ⊢
      exact ih h

theorem lookupA_self {α : Type} : ∀ {l : List (String × α)},
    (l.map Prod.fst).Nodup → ∀ {kv}, kv ∈ l → lookupA l kv.1 = some kv.2 := by
  intro l
  induction l with
  | nil => intro _ kv hm; cases hm
  | cons hd rest ih =>
    intro hnd kv hm
    rcases List.mem_cons.mp hm with rfl | hm'
    · simp [lookupA]
    · have hne : hd.1 ≠ kv.1 := by
        intro he
        have : kv.1 ∈ rest.map Prod.fst := List.mem_map_of_mem Prod.fst hm'
        rw [← he] at this
        exact (List.nodup_cons.mp hnd).1 this
      simp only [lookupA, beq_iff_eq, hne, if_false]
      exact ih (List.nodup_cons.mp hnd).2 hm'

theorem lookupA_mem {α : Type} : ∀ {l : List (String × α)} {k : String} {v : α},
    lookupA l k = some v → ∃ kv ∈ l, kv.2 = v := by
  intro l
  induction l with
  | nil => intro k v h; cases h
  | cons hd rest ih =>
    intro k v h
    by_cases hk : hd.1 = k
    · simp only [lookupA, hk, beq_self_eq_true, if_true, Option.some_inj] at h
      exact ⟨hd, List.mem_cons_self hd rest, h⟩
    · simp only [lookupA, beq_iff_eq, hk, if_false] at h
      obtain ⟨kv, hkv, hv⟩ := ih h
      exact ⟨kv, List.mem_cons_of_mem hd hkv, hv⟩

/-! ## Lemmas about the discovered-name set -/

theorem addNames_cons (d : List String) (n : String) (ns : List String) :
    addNames d (n :: ns) = addNames (if n ∈ d then d else d ++ [n]) ns := rfl

theorem addNames_subset : ∀ (names d : List String), d ⊆ addNames d names := by
  intro names
  induction names with
  | nil => intro d; exact fun _ h => h
  | cons n ns ih =>
    intro d
    rw [addNames_cons]
    refine List.Subset.trans ?_ (ih _)
    split
    · exact fun _ h => h
    · exact List.subset_append_left d [n]

theorem addNames_sub : ∀ (names d : List String), ∀ m ∈ addNames d names,
    m ∈ d ∨ m ∈ names := by
  intro names
  induction names with
  | nil => intro d m hm; exact Or.inl hm
  | cons n ns ih =>
    intro d m hm
    rw [addNames_cons] at hm
    rcases ih _ m hm with hstep | hns
    · by_cases hnd : n ∈ d
      · rw [if_pos hnd] at hstep; exact Or.inl hstep
      · rw [if_neg hnd] at hstep
        rcases List.mem_append.mp hstep with h | h
        · exact Or.inl h
        · simp only [List.mem_singleton] at h
          exact Or.inr (h ▸ List.mem_cons_self n ns)
    · exact Or.inr (List.mem_cons_of_mem n hns)

theorem addNames_nodup : ∀ (names d : List String), d.Nodup →
    (addNames d names).Nodup := by
  intro names
  induction names with
  | nil => intro d h; exact h
  | cons n ns ih =>
    intro d h
    rw [addNames_cons]
    apply ih
    by_cases hnd : n ∈ d
    · rwa [if_pos hnd]
    · rw [if_neg hnd]
      simp [List.nodup_append, h, hnd]

/-! ## Lemmas about the walk invariant and its measure -/

theorem walkOk_refl {U : List Req} {s : WalkState} : WalkOk U s s :=
  ⟨fun _ h => h, fun _ h => h, fun _ hn => Or.inl hn, id⟩

theorem walkOk_trans {U : List Req} {s t u : WalkState}
    (h1 : WalkOk U s t) (h2 : WalkOk U t u) : WalkOk U s u := by
  refine ⟨h1.1.trans h2.1, h1.2.1.trans h2.2.1, ?_, fun h => h2.2.2.2 (h1.2.2.2 h)⟩
  intro n hn
  rcases h2.2.2.1 n hn with h | h
  · exact h1.2.2.1 n h
  · exact Or.inr h

theorem unvisited_le (U : List Req) (vis : List Req) :
    unvisited U vis ≤ U.length :=
  List.length_filter_le _ _

theorem unvisited_mono (U : List Req) {v₁ v₂ : List Req} (h : v₁ ⊆ v₂) :
    unvisited U v₂ ≤ unvisited U v₁ := by
  apply List.Sublist.length_le
  apply List.monotone_filter_right
  intro a ha
  simp only [decide_eq_true_eq] at ha ⊢
  exact fun hm => ha (h hm)

theorem unvisited_insert {U vis : List Req} {p : Req}
    (hU : p ∈ U) (hv : p ∉ vis) :
    unvisited U (p :: vis) < unvisited U vis := by
  unfold unvisited
  have heq : U.filter (fun r => decide (r ∉ p :: vis)) =
      (U.filter (fun r => decide (r ∉ vis))).filter (fun r => decide (r ≠ p)) := by
    rw [List.filter_filter]
    apply List.filter_congr
    intro a _
    simp [List.mem_cons, not_or, and_comm]
  rw [heq]
  apply List.length_filter_lt_length_iff_exists.mpr
  exact ⟨p, List.mem_filter.mpr ⟨hU, by simp [hv]⟩, by simp⟩

theorem reqUniverse_closed (env : List Dist) (root : Req) :
    envClosed env (reqUniverse env root) := by
  intro p d hd q hq
  have hdm : d ∈ env := List.mem_of_find?_eq_some hd
  apply List.mem_cons_of_mem
  apply List.mem_flatMap.mpr
  refine ⟨d, hdm, ?_⟩
  rw [Dist.requires] at hq
  rcases List.mem_append.mp hq with hb | he
  · exact List.mem_append.mpr (Or.inl hb)
  · apply List.mem_append.mpr
    right
    obtain ⟨e, _, he2⟩ := List.mem_flatMap.mp he
    cases hl : lookupA d.extraReqs e with
    | none => rw [hl] at he2; cases he2
    | some l' =>
      rw [hl] at he2
      obtain ⟨kv, hkv, rfl⟩ := lookupA_mem hl
      exact List.mem_flatMap.mpr ⟨kv, hkv, he2⟩

/-- Fuel adequacy of the walk: with more fuel than there are unvisited
universe members, `walkF` completes (the Python recursion terminates, the
visited-set check being what makes the measure decrease on cyclic
requirement graphs) and its state change satisfies `WalkOk`. -/
theorem walkF_adequate (env : List Dist) (U : List Req) (hU : envClosed env U) :
    ∀ (fuel : Nat) (p : Req) (s : WalkState), p ∈ U →
      unvisited U s.visited < fuel →
      ∃ t, walkF env fuel p s = some t ∧ WalkOk U s t := by
  intro fuel
  induction fuel with
  | zero => intro p s _ h; exact absurd h (Nat.not_lt_zero _)
  | succ fuel ih =>
    intro p s hp hlt
    by_cases hv : p ∈ s.visited
    · exact ⟨s, by simp [walkF, hv], walkOk_refl⟩
    · cases hgd : getDistribution env p with
      | none =>
        refine ⟨{ s with visited := p :: s.visited }, ?_, ?_⟩
        · simp [walkF, hv, hgd]
        · exact ⟨fun x hx => List.mem_cons_of_mem _ hx, fun _ h => h,
            fun n hn => Or.inl hn, id⟩
      | some d =>
        have hreqsU : ∀ q ∈ d.requires (extrasFor p), q ∈ U :=
          fun q hq => hU p d hgd q hq
        have hok2 : WalkOk U s
            { visited := p :: s.visited,
              discovered := addNames s.discovered
                ((d.requires (extrasFor p)).map (fun r => lowerStr r.projectName)) } := by
          refine ⟨fun x hx => List.mem_cons_of_mem _ hx, addNames_subset _ _, ?_, ?_⟩
          · intro n hn
            rcases addNames_sub _ _ n hn with h | h
            · exact Or.inl h
            · obtain ⟨q, hq, rfl⟩ := List.mem_map.mp h
              exact Or.inr ⟨q, hreqsU q hq, rfl⟩
          · exact addNames_nodup _ _
        have hlt2 : unvisited U (p :: s.visited) < fuel := by
          have h1 : unvisited U (p :: s.visited) < unvisited U s.visited :=
            unvisited_insert hp hv
          omega
        have hfold : ∀ (l : List Req) (s' : WalkState), (∀ q ∈ l, q ∈ U) →
            unvisited U s'.visited < fuel →
            ∃ t, l.foldl (fun acc q => acc.bind (walkF env fuel q)) (some s') = some t ∧
              WalkOk U s' t := by
          intro l
          induction l with
          | nil => intro s' _ _; exact ⟨s', rfl, walkOk_refl⟩
          | cons q rest ihl =>
            intro s' hql hlt'
            obtain ⟨t1, ht1, hok1⟩ := ih q s' (hql q (List.mem_cons_self q rest)) hlt'
            obtain ⟨t2, ht2, hok12⟩ :=
              ihl t1 (fun r hr => hql r (List.mem_cons_of_mem q hr))
                (lt_of_le_of_lt (unvisited_mono U hok1.1) hlt')
            refine ⟨t2, ?_, walkOk_trans hok1 hok12⟩
            rw [List.foldl_cons]
            rw [show (some s').bind (walkF env fuel q) = some t1 from ht1]
            exact ht2
        obtain ⟨t, htf, hokf⟩ := hfold (d.requires (extrasFor p))
          { visited := p :: s.visited,
            discovered := addNames s.discovered
              ((d.requires (extrasFor p)).map (fun r => lowerStr r.projectName)) }
          hreqsU hlt2
        refine ⟨t, ?_, walkOk_trans hok2 hokf⟩
        simp only [walkF, hv, if_false, hgd]
        exact htf

/-- The walker always completes (cycles included), and its output is a
sorted duplicate-free list of lower-cased names containing the root's own
name, each name being the lower-cased project name of the root or of a
requirement some installed distribution declares. -/
theorem recursive_dependencies_spec (env : List Dist) (root : Req) :
    ∃ l, recursive_dependencies env root = some l ∧
      l.Sorted SLe ∧ l.Nodup ∧ lowerStr root.projectName ∈ l ∧
      ∀ n ∈ l, n = lowerStr root.projectName ∨
        ∃ q ∈ reqUniverse env root, n = lowerStr q.projectName := by
  obtain ⟨t, ht, hok⟩ := walkF_adequate env (reqUniverse env root)
    (reqUniverse_closed env root) ((reqUniverse env root).length + 1) root
    { discovered := [lowerStr root.projectName], visited := [] }
    (List.mem_cons_self _ _)
    (Nat.lt_succ_of_le (unvisited_le _ _))
  refine ⟨List.insertionSort SLe t.discovered, ?_, ?_, ?_, ?_, ?_⟩
  · rw [recursive_dependencies, ht]; rfl
  · exact List.sorted_insertionSort SLe t.discovered
  · have hnd : t.discovered.Nodup := hok.2.2.2 (by simp)
    exact ((List.perm_insertionSort SLe t.discovered).nodup_iff).mpr hnd
  · exact (List.mem_insertionSort SLe).mpr (hok.2.1 (by simp))
  · intro n hn
    have hn' : n ∈ t.discovered := (List.mem_insertionSort SLe).mp hn
    rcases hok.2.2.1 n hn' with h | h
    · left; simpa using h
    · right; exact h

/-- The keys of a sorted graph are the sorted keys of the input. -/
theorem sortGraph_keys (l : List (String × GraphRec)) :
    (sortGraph l).map Prod.fst = List.insertionSort SLe (l.map Prod.fst) := by
  rw [sortGraph, List.map_map]
  show (List.insertionSort SLe (l.map Prod.fst)).map (fun k => k) = _
  simp

/-- The builder `make_graph` succeeds whenever the walker does, and its key sequence
is the sorted, ignore-filtered walker output. -/
theorem make_graph_keys_of (F : Fetcher) (env : List Dist) (pkg : Req)
    (pd : List String) (hpd : recursive_dependencies env pkg = some pd) :
    ∃ out, make_graph F env pkg = some out ∧
      out.1.map Prod.fst = List.insertionSort SLe
        (pd.filter (fun k =>
          decide (k ∉ ["argparse", "pip", "setuptools", "wsgiref"]))) := by
  refine ⟨_, by rw [make_graph, hpd]; rfl, ?_⟩
  rw [sortGraph_keys]
  simp only [List.map_map]
  show List.insertionSort SLe ((pd.filter (fun k =>
      decide (k ∉ ["argparse", "pip", "setuptools", "wsgiref"]))).map (fun k => k)) = _
  simp

/-! ## Lemmas about the merge loop -/

/-- A pass of the merge loop over keys none of which are present yet
appends them all, warning-free. -/
theorem foldlM_mergeKey_fresh :
    ∀ (l : List (String × GraphRec)) (acc : List (String × GraphRec)) (w : List Warn),
      (∀ kv ∈ l, lookupA acc kv.1 = none) → (l.map Prod.fst).Nodup →
      l.foldlM mergeKey (acc, w) = .ok (acc ++ l, w) := by
  intro l
  induction l with
  | nil => intro acc w _ _; simp; rfl
  | cons kv rest ih =>
    intro acc w hfresh hnd
    rw [List.foldlM_cons]
    have hk : lookupA acc kv.1 = none := hfresh kv (List.mem_cons_self kv rest)
    have hm : mergeKey (acc, w) kv = .ok (acc ++ [kv], w) := by rw [mergeKey, hk]
    rw [hm]
    show rest.foldlM mergeKey (acc ++ [kv], w) = .ok (acc ++ kv :: rest, w)
    have hfresh' : ∀ q ∈ rest, lookupA (acc ++ [kv]) q.1 = none := by
      intro q hq
      have h1 : lookupA acc q.1 = none := hfresh q (List.mem_cons_of_mem kv hq)
      rw [lookupA_append_right [kv] h1]
      have hne : kv.1 ≠ q.1 := by
        intro he
        have : q.1 ∈ rest.map Prod.fst := List.mem_map_of_mem Prod.fst hq
        rw [← he] at this
        exact (List.nodup_cons.mp (by simpa using hnd)).1 this
      simp [lookupA, hne]
    rw [ih (acc ++ [kv]) w hfresh' (by simpa using (List.nodup_cons.mp (by simpa using hnd)).2)]
    simp

/-- A pass of the merge loop over keys that are all already present with
identical records is a no-op with no warning. -/
theorem foldlM_mergeKey_dup :
    ∀ (l : List (String × GraphRec)) (acc : List (String × GraphRec)) (w : List Warn),
      (∀ kv ∈ l, lookupA acc kv.1 = some kv.2) →
      l.foldlM mergeKey (acc, w) = .ok (acc, w) := by
  intro l
  induction l with
  | nil => intro acc w _; rfl
  | cons kv rest ih =>
    intro acc w hdup
    rw [List.foldlM_cons]
    have hm : mergeKey (acc, w) kv = .ok (acc, w) := by
      rw [mergeKey, hdup kv (List.mem_cons_self kv rest)]
      simp
    rw [hm]
    show rest.foldlM mergeKey (acc, w) = .ok (acc, w)
    exact ih acc w (fun q hq => hdup q (List.mem_cons_of_mem kv hq))

/-- Re-sorting a graph whose keys are already sorted and duplicate-free
reproduces it exactly. -/
theorem sortGraph_eq_self {G : List (String × GraphRec)}
    (hnd : (G.map Prod.fst).Nodup) (hs : (G.map Prod.fst).Sorted SLe) :
    sortGraph G = G := by
  rw [sortGraph, hs.insertionSort_eq, List.map_map]
  have hpt : ∀ kv ∈ G, ((fun k => (k, (lookupA G k).getD {})) ∘ Prod.fst) kv = kv := by
    intro kv hkv
    simp [lookupA_self hnd hkv]
  rw [List.map_congr_left hpt]
  simp

/-! ## Lemmas about the metadata fetcher -/

/-- When no release both matches the requested version exactly and ships
an sdist, the release scan comes up empty. -/
theorem findReleaseArtefact_eq_none (F : Fetcher)
    (rels : List (String × List Artefact)) (v : String)
    (h : ∀ rel ∈ rels, F.safe_version rel.1 = v →
      ∀ art ∈ rel.2, art.packagetype ≠ "sdist") :
    findReleaseArtefact F rels v = none := by
  rw [findReleaseArtefact]
  induction rels with
  | nil => rfl
  | cons rel rest ih =>
    rw [List.foldl_cons]
    have hstep :
        (if F.safe_version rel.1 == v then
          match sdistOf rel.2 with
          | some art => some art
          | none => none
        else none) = (none : Option Artefact) := by
      by_cases hm : F.safe_version rel.1 = v
      · have hsd : sdistOf rel.2 = none := by
          apply List.find?_eq_none.mpr
          intro a ha
          simpa using h rel (List.mem_cons_self rel rest) hm a ha
        simp [hm, hsd]
      · simp [hm]
    rw [show (if F.safe_version rel.1 == v then
          match sdistOf rel.2 with
          | some art => some art
          | none => (none : Option Artefact)
        else none) = none from hstep]
    exact ih (fun r hr => h r (List.mem_cons_of_mem rel hr))

/-! ## The claims -/

/-- C1.  The merge loop does insert a first occurrence and skip an
identical later occurrence, but on a later occurrence with a *different*
record it does not emit a `ConflictingDependencyWarning`: building the
warning message formats `{l.name}`/`{l.version}` by attribute access on
the two records, which are plain dicts, so the merge raises
`AttributeError` instead (the spec describes the evident intent; the code
has a slip).  Evaluated here at the three kinds of input. -/
theorem merge_graphs_conflict_attribute_error :
    merge_graphs [[("foo", recFoo1)]] = .ok ([("foo", recFoo1)], []) ∧
    merge_graphs [[("foo", recFoo1)], [("foo", recFoo1)]] =
      .ok ([("foo", recFoo1)], []) ∧
    merge_graphs [[("foo", recFoo1)], [("foo", recFoo2)]] =
      .error (.attributeError "dict object has no attribute name") :=
  ⟨rfl, rfl, rfl⟩

/-- C2.  The key sequence of every graph `make_graph` returns is sorted in
the lexicographic string order and consists of lower-cased names, and the
key sequence of every mapping `merge_graphs` returns is sorted likewise —
for every input, hence regardless of the order roots or graphs were
supplied in. -/
theorem output_keys_sorted :
    (∀ (F : Fetcher) (env : List Dist) (pkg : Req),
      ∃ out, make_graph F env pkg = some out ∧
        (out.1.map Prod.fst).Sorted SLe ∧
        ∀ k ∈ out.1.map Prod.fst, ∃ s, k = lowerStr s) ∧
    (∀ (graphs : List (List (String × GraphRec)))
      (out : List (String × GraphRec) × List Warn),
      merge_graphs graphs = .ok out → (out.1.map Prod.fst).Sorted SLe) := by
  constructor
  · intro F env pkg
    obtain ⟨pd, hpd, _, _, _, hprov⟩ := recursive_dependencies_spec env pkg
    obtain ⟨out, hout, hkeys⟩ := make_graph_keys_of F env pkg pd hpd
    refine ⟨out, hout, ?_, ?_⟩
    · rw [hkeys]; exact List.sorted_insertionSort _ _
    · intro k hk
      rw [hkeys] at hk
      have hkpd : k ∈ pd :=
        List.mem_of_mem_filter ((List.mem_insertionSort SLe).mp hk)
      rcases hprov k hkpd with h | ⟨q, _, h⟩
      · exact ⟨pkg.projectName, h⟩
      · exact ⟨q.projectName, h⟩
  · intro graphs out h
    rw [merge_graphs] at h
    cases hx : graphs.foldlM
        (fun acc (g : List (String × GraphRec)) => g.foldlM mergeKey acc) ([], []) with
    | error e => rw [hx] at h; cases h
    | ok rw0 =>
      rw [hx] at h
      simp only [Except.map, Except.ok.injEq] at h
      rw [← h, sortGraph_keys]
      exact List.sorted_insertionSort _ _

/-- Witness for C2 at concrete inputs. -/
theorem output_keys_sorted_witness :
    (∃ out, make_graph emptyFetcher [demoDist] { projectName := "demo", extras := [] }
        = some out ∧ (out.1.map Prod.fst).Sorted SLe ∧
        ∀ k ∈ out.1.map Prod.fst, ∃ s, k = lowerStr s) ∧
    (([("bar", recBar), ("foo", recFoo1)].map Prod.fst).Sorted SLe) :=
  ⟨output_keys_sorted.1 emptyFetcher [demoDist] { projectName := "demo", extras := [] },
   output_keys_sorted.2 [[("foo", recFoo1)], [("bar", recBar)]]
     ([("bar", recBar), ("foo", recFoo1)], []) (by rfl)⟩

/-- C3.  For every working set — cyclic requirement relations included —
and every root requirement, `recursive_dependencies` completes (the
visited-set check prevents re-expansion) and returns a sorted,
duplicate-free list of lower-cased names that contains the root's own
lower-cased name; every returned name is the lower-casing of the root's or
of some declared requirement's project name. -/
theorem recursive_dependencies_terminates_sorted (env : List Dist) (root : Req) :
    ∃ l, recursive_dependencies env root = some l ∧
      l.Sorted SLe ∧ l.Nodup ∧ lowerStr root.projectName ∈ l ∧
      ∀ n ∈ l, n = lowerStr root.projectName ∨
        ∃ q ∈ reqUniverse env root, n = lowerStr q.projectName :=
  recursive_dependencies_spec env root

/-- C4.  When the chosen artifact's registry response supplies a sha256
digest, `research_package` uses it and downloads nothing; when it supplies
no digest, `research_package` downloads the artifact once and uses the
locally computed sha256 of the body. -/
theorem research_package_checksum_resolution (F : Fetcher) (name : String)
    (version₀ : Option String) (a : Artefact)
    (ha : chosenArtefact F (F.registry name) (resolveVersion F version₀) = some a) :
    (∀ dg h, a.digests = some dg → lookupA dg "sha256" = some h →
      (research_package F name version₀).1.checksum = h ∧
      (research_package F name version₀).2.1 = []) ∧
    ((a.digests = none ∨ ∃ dg, a.digests = some dg ∧ lookupA dg "sha256" = none) →
      (research_package F name version₀).1.checksum = F.sha256 (F.download a.url) ∧
      (research_package F name version₀).2.1 = [a.url]) := by
  constructor
  · intro dg h hdg hsha
    simp only [research_package, ha, hdg, hsha]
    exact ⟨trivial, trivial⟩
  · intro hcase
    rcases hcase with hnone | ⟨dg, hdg, hsha⟩
    · simp only [research_package, ha, hnone]
      exact ⟨trivial, trivial⟩
    · simp only [research_package, ha, hdg, hsha]
      exact ⟨trivial, trivial⟩

/-- Witness for C4: a digest-carrying response needs no download, a
digest-free response is downloaded and hashed. -/
theorem research_package_checksum_resolution_witness :
    ((research_package digestFetcher "pkg" none).1.checksum = "cafebabe" ∧
     (research_package digestFetcher "pkg" none).2.1 = []) ∧
    ((research_package noDigestFetcher "pkg" none).1.checksum = "deadbeef" ∧
     (research_package noDigestFetcher "pkg" none).2.1 = ["https://files/pkg-2.tar.gz"]) :=
  ⟨(research_package_checksum_resolution digestFetcher "pkg" none
      { packagetype := "sdist", url := "https://files/pkg-1.0.0.tar.gz",
        digests := some [("sha256", "cafebabe")] } rfl).1
      [("sha256", "cafebabe")] "cafebabe" rfl rfl,
   (research_package_checksum_resolution noDigestFetcher "pkg" none
      { packagetype := "sdist", url := "https://files/pkg-2.tar.gz",
        digests := none } rfl).2 (Or.inl rfl)⟩

/-- C5.  Merging a well-formed dependency graph (duplicate-free, sorted
keys — the Graph Builder's output invariant) with itself returns exactly
that graph and emits no warning. -/
theorem merge_graphs_idempotent (G : List (String × GraphRec))
    (hnd : (G.map Prod.fst).Nodup) (hs : (G.map Prod.fst).Sorted SLe) :
    merge_graphs [G, G] = .ok (G, []) := by
  have h1 : G.foldlM mergeKey (([] : List (String × GraphRec)), ([] : List Warn))
      = .ok (G, []) := by
    have := foldlM_mergeKey_fresh G [] [] (fun kv _ => rfl) hnd
    simpa using this
  have h2 : G.foldlM mergeKey (G, ([] : List Warn)) = .ok (G, []) :=
    foldlM_mergeKey_dup G G [] (fun kv hkv => lookupA_self hnd hkv)
  rw [merge_graphs]
  rw [show ([G, G]).foldlM
        (fun acc (g : List (String × GraphRec)) => g.foldlM mergeKey acc) ([], [])
      = Except.ok (G, ([] : List Warn)) from ?_]
  · show Except.ok (sortGraph G, ([] : List Warn)) = .ok (G, [])
    rw [sortGraph_eq_self hnd hs]
  · rw [List.foldlM_cons]
    rw [h1]
    show List.foldlM
        (fun acc (g : List (String × GraphRec)) => g.foldlM mergeKey acc)
        (G, ([] : List Warn)) [G] = Except.ok (G, ([] : List Warn))
    rw [List.foldlM_cons]
    rw [h2]
    rfl

/-- Witness for C5 at a concrete two-entry graph. -/
theorem merge_graphs_idempotent_witness :
    (([("bar", recBar), ("foo", recFoo1)].map Prod.fst).Nodup ∧
     ([("bar", recBar), ("foo", recFoo1)].map Prod.fst).Sorted SLe) ∧
    merge_graphs [[("bar", recBar), ("foo", recFoo1)],
                  [("bar", recBar), ("foo", recFoo1)]] =
      .ok ([("bar", recBar), ("foo", recFoo1)], []) :=
  ⟨⟨by decide, by decide⟩,
   merge_graphs_idempotent [("bar", recBar), ("foo", recFoo1)] (by decide) (by decide)⟩

/-- C6.  When the requested version parses but no release both matches it
exactly and ships an sdist, `research_package` emits a
`PackageVersionNotFoundWarning` and returns exactly the metadata of the
no-version call, i.e. that of the newest available sdist. -/
theorem research_package_version_fallback (F : Fetcher) (name v : String)
    (hp : F.parseOk v = true)
    (hnone : ∀ rel ∈ (F.registry name).releases, F.safe_version rel.1 = v →
      ∀ art ∈ rel.2, art.packagetype ≠ "sdist") :
    Warn.packageVersionNotFound name v ∈ (research_package F name (some v)).2.2 ∧
    (research_package F name (some v)).1 = (research_package F name none).1 := by
  have hfind : findReleaseArtefact F (F.registry name).releases v = none :=
    findReleaseArtefact_eq_none F _ v hnone
  have hres : resolveVersion F (some v) = some v := by simp [resolveVersion, hp]
  have hres0 : resolveVersion F none = none := rfl
  constructor
  · cases hsd : sdistOf (F.registry name).urls with
    | some a => simp [research_package, hres, hres0, chosenArtefact, hfind, hsd]
    | none => simp [research_package, hres, hres0, chosenArtefact, hfind, hsd]
  · cases hsd : sdistOf (F.registry name).urls with
    | some a => simp [research_package, hres, hres0, chosenArtefact, hfind, hsd]
    | none => simp [research_package, hres, hres0, chosenArtefact, hfind, hsd]

/-- Witness for C6: requesting 9.9.9 from a registry that only has 1.0.0
warns and falls back to the newest sdist. -/
theorem research_package_version_fallback_witness :
    Warn.packageVersionNotFound "pkg" "9.9.9" ∈
      (research_package digestFetcher "pkg" (some "9.9.9")).2.2 ∧
    (research_package digestFetcher "pkg" (some "9.9.9")).1 =
      (research_package digestFetcher "pkg" none).1 :=
  research_package_version_fallback digestFetcher "pkg" "9.9.9" rfl (by decide)

/-- Counterexample for C7.  On a registry with no source artifact, the
warning `research_package` emits carries the *base* `UserWarning` category
(`warnings.warn` is called at poet.py:325 with no category; no
`NoSourceArtifactWarning` class exists in the code), and the other
recoverable conditions subclass `UserWarning`, so asserting on this
condition's category also matches them: it is not a distinct,
distinguishable named condition. -/
theorem research_package_no_sdist_generic_warning_counterexample :
    (research_package wheelOnlyFetcher "foo" none).2.2.map Warn.category =
      [WarnCategory.UserWarning] ∧
    WarnCategory.PackageVersionNotFoundWarning.isSubclassOf
      WarnCategory.UserWarning = true ∧
    WarnCategory.PackageNotInstalledWarning.isSubclassOf
      WarnCategory.UserWarning = true :=
  ⟨rfl, rfl, rfl⟩

/-- C7 as amended.  When the registry exposes no source-archive artifact
at all, `research_package` still returns (empty `url` and `checksum`
fields) and emits a "No sdist found" warning — but that warning carries
the default base `UserWarning` category, not a distinct warning class; it
is distinguishable only by its message text. -/
theorem research_package_no_sdist_returns_empty (F : Fetcher) (name : String)
    (version₀ : Option String)
    (hurls : ∀ a ∈ (F.registry name).urls, a.packagetype ≠ "sdist")
    (hrels : ∀ rel ∈ (F.registry name).releases, ∀ a ∈ rel.2,
      a.packagetype ≠ "sdist") :
    (research_package F name version₀).1.url = "" ∧
    (research_package F name version₀).1.checksum = "" ∧
    Warn.noSdist name ∈ (research_package F name version₀).2.2 ∧
    (Warn.noSdist name).category = WarnCategory.UserWarning := by
  have hsd : sdistOf (F.registry name).urls = none := by
    apply List.find?_eq_none.mpr
    intro a ha
    simpa using hurls a ha
  have hchosen : chosenArtefact F (F.registry name) (resolveVersion F version₀)
      = none := by
    cases hv : resolveVersion F version₀ with
    | none => simpa [chosenArtefact] using hsd
    | some v =>
      have hfind : findReleaseArtefact F (F.registry name).releases v = none :=
        findReleaseArtefact_eq_none F _ v (fun rel hrel _ => hrels rel hrel)
      simpa [chosenArtefact, hfind] using hsd
  simp only [research_package, hchosen]
  refine ⟨trivial, trivial, ?_, rfl⟩
  exact List.mem_append_right _ (List.mem_singleton_self _)

/-- Witness for C7 as amended, at a wheel-only registry. -/
theorem research_package_no_sdist_returns_empty_witness :
    (research_package wheelOnlyFetcher "foo" none).1.url = "" ∧
    (research_package wheelOnlyFetcher "foo" none).1.checksum = "" ∧
    Warn.noSdist "foo" ∈ (research_package wheelOnlyFetcher "foo" none).2.2 ∧
    (Warn.noSdist "foo").category = WarnCategory.UserWarning :=
  research_package_no_sdist_returns_empty wheelOnlyFetcher "foo" none
    (by decide) (by decide)

/-- Counterexample for C8.  For the root specifier `pip` — a member of the
fixed ignore list — the graph `make_graph` builds has no keys at all, so
the root package's own name is *not* present: the claimed invariant fails
for roots that are themselves ignored. -/
theorem make_graph_root_in_ignore_counterexample :
    (make_graph emptyFetcher [pipDist] { projectName := "pip", extras := [] }).map
      (fun out => out.1.map Prod.fst) = some [] ∧
    "pip" ∉ ([] : List String) :=
  ⟨rfl, by simp⟩

/-- C8 as amended.  For every root specifier whose lower-cased name is not
in the fixed ignore list, the graph's keys are duplicate-free, contain the
root's own lower-cased name, and exclude every ignore-list member —
whatever the underlying dependency data. -/
theorem make_graph_invariants (F : Fetcher) (env : List Dist) (pkg : Req)
    (out : List (String × GraphRec) × List Warn)
    (hout : make_graph F env pkg = some out)
    (hroot : lowerStr pkg.projectName ∉ ["argparse", "pip", "setuptools", "wsgiref"]) :
    (out.1.map Prod.fst).Nodup ∧
    lowerStr pkg.projectName ∈ out.1.map Prod.fst ∧
    ∀ k ∈ ["argparse", "pip", "setuptools", "wsgiref"], k ∉ out.1.map Prod.fst := by
  obtain ⟨pd, hpd, _, hnd, hrootm, _⟩ := recursive_dependencies_spec env pkg
  obtain ⟨out', hout', hkeys⟩ := make_graph_keys_of F env pkg pd hpd
  have heq : out' = out := by
    rw [hout'] at hout
    exact Option.some.inj hout
  rw [heq] at hkeys
  refine ⟨?_, ?_, ?_⟩
  · rw [hkeys]
    exact ((List.perm_insertionSort SLe _).nodup_iff).mpr (hnd.filter _)
  · rw [hkeys]
    apply (List.mem_insertionSort SLe).mpr
    exact List.mem_filter.mpr ⟨hrootm, by simpa using hroot⟩
  · intro k hk
    rw [hkeys]
    intro hmem
    have hfil := (List.mem_filter.mp ((List.mem_insertionSort SLe).mp hmem)).2
    simp only [decide_eq_true_eq] at hfil
    exact hfil hk

/-- Witness for C8 as amended, at the `demo` fixture. -/
theorem make_graph_invariants_witness :
    (demoGraphOut.1.map Prod.fst).Nodup ∧
    lowerStr "demo" ∈ demoGraphOut.1.map Prod.fst ∧
    ∀ k ∈ ["argparse", "pip", "setuptools", "wsgiref"],
      k ∉ demoGraphOut.1.map Prod.fst :=
  make_graph_invariants emptyFetcher [demoDist] { projectName := "demo", extras := [] }
    demoGraphOut (by rfl) (by decide)

/-- C9.  The `requests` special case is dead code: `package == "requests"`
compares a `pkg_resources.Requirement` with a `str`, which is always
`False`, so the hard-coded `security` extra is never unioned in and the
dependencies that extra would contribute (here `pyopenssl`) are never
discovered.  The claim (and spec) state the evident intent; the code's
comparison is a slip. -/
theorem requests_security_extra_never_added :
    reqEqStr { projectName := "requests", extras := [] } "requests" = false ∧
    extrasFor { projectName := "requests", extras := [] } = [] ∧
    recursive_dependencies [requestsDist] { projectName := "requests", extras := [] }
      = some ["requests"] ∧
    "pyopenssl" ∉ ["requests"] :=
  ⟨rfl, rfl, rfl, by decide⟩

/-- C10.  A version argument that fails to parse (or is absent) is coerced
to "no version requested": the call does not raise and resolves exactly as
the no-version call does, from the newest available sdist in `urls`. -/
theorem research_package_unparseable_version (F : Fetcher) (name s : String)
    (h : F.parseOk s = false) :
    research_package F name (some s) = research_package F name none ∧
    ∀ a, sdistOf (F.registry name).urls = some a →
      (research_package F name none).1.url = a.url := by
  have hres : resolveVersion F (some s) = none := by simp [resolveVersion, h]
  have hres0 : resolveVersion F none = none := rfl
  constructor
  · simp only [research_package, hres, hres0]
  · intro a hsd
    simp only [research_package, hres0, chosenArtefact, hsd]

/-- Witness for C10 with a parser that rejects the requested version. -/
theorem research_package_unparseable_version_witness :
    research_package unparseableFetcher "pkg" (some "not a version") =
      research_package unparseableFetcher "pkg" none ∧
    (research_package unparseableFetcher "pkg" none).1.url =
      "https://files/pkg-1.0.0.tar.gz" :=
  ⟨(research_package_unparseable_version unparseableFetcher "pkg" "not a version" rfl).1,
   (research_package_unparseable_version unparseableFetcher "pkg" "not a version" rfl).2
     { packagetype := "sdist", url := "https://files/pkg-1.0.0.tar.gz",
       digests := some [("sha256", "cafebabe")] } rfl⟩

end Poet
